import Mathlib

/-!
Shallow embedding of the minimal chess game (rules engine `ChessGame` and
search engine `ChessAI`) and proofs about it.

Boards are functions `Fin 8 → Fin 8 → Option Piece`; the source's in-place
`board[r][c] = v` writes become functional updates (`Board.set`), and the
source's pervasive "apply a candidate move / inspect / undo" pattern is made
explicit by threading the board value through the operations that use it
(the `...T` definitions return the final board alongside their result).
JavaScript's `±Infinity` sentinels are modelled by `±INF` (an `Int` far
outside the range any reachable evaluation score can attain).
-/

namespace Chess

/-- The two piece colors (source: the `'white'` / `'black'` strings). -/
inductive Color where
  | white
  | black
deriving DecidableEq, Repr

/-- The six piece kinds (source: the `type` strings `'pawn'`, `'rook'`, …). -/
inductive PieceType where
  | pawn
  | rook
  | knight
  | bishop
  | queen
  | king
deriving DecidableEq, Repr

/-- A piece on the board: `{ type, color }` object of the source. -/
structure Piece where
  type : PieceType
  color : Color
deriving DecidableEq, Repr

/-- An 8×8 board: each square holds a piece or is empty (`null`). -/
abbrev Board := Fin 8 → Fin 8 → Option Piece

/-- The opponent color (`color === 'white' ? 'black' : 'white'`). -/
def Color.opposite : Color → Color
  | .white => .black
  | .black => .white

/-- Board write `board[r][c] = v` as a functional update. -/
def Board.set (b : Board) (r c : Fin 8) (v : Option Piece) : Board :=
  fun r' c' => if r' = r ∧ c' = c then v else b r' c'

/-- Board read `board[r][c]` at integer coordinates; every access the source
actually reaches is guarded to be in range, so the out-of-range branch is
never exercised by the claims. -/
def Board.lookup (b : Board) (r c : Int) : Option Piece :=
  if h : 0 ≤ r ∧ r < 8 ∧ 0 ≤ c ∧ c < 8 then
    b ⟨r.toNat, by omega⟩ ⟨c.toNat, by omega⟩
  else none

/-- The square indices `0,…,7` in increasing order (the `for` loop range). -/
def allSquares : List (Fin 8) := List.finRange 8

/-- All 64 squares in row-major order, matching the nested
`for (row) for (col)` loops of the source. -/
def allPairs : List (Fin 8 × Fin 8) :=
  allSquares.flatMap fun r => allSquares.map fun c => (r, c)

/-- Does the option hold a piece of the given color
(`targetPiece && targetPiece.color === piece.color`)? -/
def sameColorAt (piece : Piece) (o : Option Piece) : Bool :=
  match o with
  | some t => decide (t.color = piece.color)
  | none => false

/-- Source `isValidPawnMove`: one-step advance to an empty square,
two-step advance from the starting rank through empty squares, or a
diagonal capture of an opposing piece. -/
def isValidPawnMove (b : Board) (fromRow fromCol toRow toCol : Fin 8) : Bool :=
  match b fromRow fromCol with
  | none => false
  | some piece =>
    let direction : Int := if piece.color = Color.white then -1 else 1
    let startRow : Int := if piece.color = Color.white then 6 else 1
    if fromCol = toCol ∧ (toRow.val : Int) = (fromRow.val : Int) + direction
        ∧ b toRow toCol = none then
      true
    else if fromCol = toCol ∧ (fromRow.val : Int) = startRow
        ∧ (toRow.val : Int) = (fromRow.val : Int) + 2 * direction
        ∧ b.lookup ((fromRow.val : Int) + direction) (fromCol.val : Int) = none
        ∧ b toRow toCol = none then
      true
    else
      match b toRow toCol with
      | some target =>
        decide (((fromCol.val : Int) - (toCol.val : Int)).natAbs = 1
          ∧ (toRow.val : Int) = (fromRow.val : Int) + direction
          ∧ target.color ≠ piece.color)
      | none => false

/-- Source `isValidRookMove`: same row or column with the strictly-between squares
empty; the `for` loops over the open interval become `List.range'` scans. -/
def isValidRookMove (b : Board) (fromRow fromCol toRow toCol : Fin 8) : Bool :=
  if fromRow ≠ toRow ∧ fromCol ≠ toCol then false
  else if fromRow = toRow then
    let lo := min fromCol.val toCol.val
    let hi := max fromCol.val toCol.val
    (List.range' (lo + 1) (hi - lo - 1)).all fun c =>
      (b.lookup (fromRow.val : Int) (c : Int)).isNone
  else
    let lo := min fromRow.val toRow.val
    let hi := max fromRow.val toRow.val
    (List.range' (lo + 1) (hi - lo - 1)).all fun r =>
      (b.lookup (r : Int) (fromCol.val : Int)).isNone

/-- Source `isValidKnightMove`: L-shaped displacement, no path requirement. -/
def isValidKnightMove (fromRow fromCol toRow toCol : Fin 8) : Bool :=
  let rowDiff := ((fromRow.val : Int) - (toRow.val : Int)).natAbs
  let colDiff := ((fromCol.val : Int) - (toCol.val : Int)).natAbs
  decide ((rowDiff = 2 ∧ colDiff = 1) ∨ (rowDiff = 1 ∧ colDiff = 2))

/-- Source `isValidBishopMove`: equal absolute displacements with the strictly-between
diagonal squares empty (`for (i = 1; i < rowDiff; i++)`). -/
def isValidBishopMove (b : Board) (fromRow fromCol toRow toCol : Fin 8) : Bool :=
  let rowDiff := ((fromRow.val : Int) - (toRow.val : Int)).natAbs
  let colDiff := ((fromCol.val : Int) - (toCol.val : Int)).natAbs
  if rowDiff ≠ colDiff then false
  else
    let rowDirection : Int := if toRow.val > fromRow.val then 1 else -1
    let colDirection : Int := if toCol.val > fromCol.val then 1 else -1
    (List.range' 1 (rowDiff - 1)).all fun i =>
      (b.lookup ((fromRow.val : Int) + i * rowDirection)
        ((fromCol.val : Int) + i * colDirection)).isNone

/-- Source `isValidQueenMove`: rook rule or bishop rule. -/
def isValidQueenMove (b : Board) (fromRow fromCol toRow toCol : Fin 8) : Bool :=
  isValidRookMove b fromRow fromCol toRow toCol
    || isValidBishopMove b fromRow fromCol toRow toCol

/-- Source `isValidKingMove`: both absolute displacements at most one. -/
def isValidKingMove (fromRow fromCol toRow toCol : Fin 8) : Bool :=
  let rowDiff := ((fromRow.val : Int) - (toRow.val : Int)).natAbs
  let colDiff := ((fromCol.val : Int) - (toCol.val : Int)).natAbs
  decide (rowDiff ≤ 1 ∧ colDiff ≤ 1)

/-- Source `isValidMove`: a piece must occupy the origin, the destination must not
hold a same-color piece, and the piece-specific rule must hold. -/
def isValidMove (b : Board) (fromRow fromCol toRow toCol : Fin 8) : Bool :=
  match b fromRow fromCol with
  | none => false
  | some piece =>
    if sameColorAt piece (b toRow toCol) then false
    else
      match piece.type with
      | .pawn => isValidPawnMove b fromRow fromCol toRow toCol
      | .rook => isValidRookMove b fromRow fromCol toRow toCol
      | .knight => isValidKnightMove fromRow fromCol toRow toCol
      | .bishop => isValidBishopMove b fromRow fromCol toRow toCol
      | .queen => isValidQueenMove b fromRow fromCol toRow toCol
      | .king => isValidKingMove fromRow fromCol toRow toCol

/-- The back-rank piece at column `i`
(`['rook','knight','bishop','queen','king','bishop','knight','rook'][i]`). -/
def backRowPiece (c : Fin 8) : PieceType :=
  if c.val = 0 then .rook
  else if c.val = 1 then .knight
  else if c.val = 2 then .bishop
  else if c.val = 3 then .queen
  else if c.val = 4 then .king
  else if c.val = 5 then .bishop
  else if c.val = 6 then .knight
  else .rook

/-- Source `createBoard`: pawns on rows 1 (black) and 6 (white), back-rank pieces on
rows 0 (black) and 7 (white), all other squares empty. -/
def createBoard : Board := fun r c =>
  if r.val = 1 then some ⟨.pawn, .black⟩
  else if r.val = 6 then some ⟨.pawn, .white⟩
  else if r.val = 0 then some ⟨backRowPiece c, .black⟩
  else if r.val = 7 then some ⟨backRowPiece c, .white⟩
  else none

/-- The king-location scan of `isKingInCheck`: first square in row-major
order holding the given side's king (the source breaks out of both loops
at the first hit). -/
def findKing (b : Board) (color : Color) : Option (Fin 8 × Fin 8) :=
  allPairs.findSome? fun rc =>
    match b rc.1 rc.2 with
    | some p => if p.type = PieceType.king ∧ p.color = color then some rc else none
    | none => none

/-- Source `isKingInCheck`: locate the king, then test whether any opposing piece
has a pseudo-legal move onto its square.  If no king is found the source
would fault on an out-of-range access; that branch is modelled as `false`
and is never reached on the one-king-per-side boards the claims use. -/
def isKingInCheck (b : Board) (color : Color) : Bool :=
  match findKing b color with
  | none => false
  | some (kingRow, kingCol) =>
    allPairs.any fun rc =>
      match b rc.1 rc.2 with
      | some p =>
        decide (p.color = color.opposite) && isValidMove b rc.1 rc.2 kingRow kingCol
      | none => false

/-- Inner destination loop of `isCheckmate` for one piece: walk the
`(toRow,toCol)` squares, and for each pseudo-legal move mutate the board
(`board[to]=piece; board[from]=null`), test check, then restore
(`board[from]=piece; board[to]=originalTarget`).  Returns whether an
escaping move was found, together with the board as the loop leaves it. -/
def escapeFrom (color : Color) (fromRow fromCol : Fin 8) (piece : Piece) :
    List (Fin 8 × Fin 8) → Board → Bool × Board
  | [], b => (false, b)
  | (toRow, toCol) :: rest, b =>
    if isValidMove b fromRow fromCol toRow toCol then
      let originalTarget := b toRow toCol
      let b1 := (b.set toRow toCol (some piece)).set fromRow fromCol none
      let stillInCheck := isKingInCheck b1 color
      let b2 := (b1.set fromRow fromCol (some piece)).set toRow toCol originalTarget
      if !stillInCheck then (true, b2)
      else escapeFrom color fromRow fromCol piece rest b2
    else escapeFrom color fromRow fromCol piece rest b

/-- Outer origin loop of `isCheckmate`: for each own piece, run the
destination loop; stop as soon as an escaping move is found. -/
def escapeScan (color : Color) : List (Fin 8 × Fin 8) → Board → Bool × Board
  | [], b => (false, b)
  | (fromRow, fromCol) :: rest, b =>
    match b fromRow fromCol with
    | some piece =>
      if piece.color = color then
        let r1 := escapeFrom color fromRow fromCol piece allPairs b
        if r1.1 then (true, r1.2) else escapeScan color rest r1.2
      else escapeScan color rest b
    | none => escapeScan color rest b

/-- Source `isCheckmate` with the source's in-place mutation made explicit: the
second component is the board state on return. -/
def isCheckmateT (b : Board) (color : Color) : Bool × Board :=
  if !isKingInCheck b color then (false, b)
  else
    let r := escapeScan color allPairs b
    (!r.1, r.2)

/-- The boolean result of `isCheckmate`. -/
def isCheckmate (b : Board) (color : Color) : Bool :=
  (isCheckmateT b color).1

/-- A move record pushed onto `moveHistory`: coordinates plus snapshots of
the moved piece (taken before promotion) and of any captured piece. -/
structure MoveRecord where
  fromRow : Fin 8
  fromCol : Fin 8
  toRow : Fin 8
  toCol : Fin 8
  piece : Piece
  capturedPiece : Option Piece
deriving DecidableEq, Repr

/-- The game state the claims touch: board, side to move, terminal flag and
move history (`this.board`, `this.currentPlayer`, `this.gameOver`,
`this.moveHistory`; the UI-only fields are out of scope). -/
structure Game where
  board : Board
  currentPlayer : Color
  gameOver : Bool
  moveHistory : List MoveRecord

/-- The promotion step of `movePiece`: a pawn reaching row 0 or row 7 has
its `type` overwritten with `queen`. -/
def promoteIfNeeded (piece : Piece) (toRow : Fin 8) : Piece :=
  if piece.type = PieceType.pawn ∧ (toRow.val = 0 ∨ toRow.val = 7) then
    { piece with type := PieceType.queen }
  else piece

/-- Source `movePiece`: record the move (snapshotting the piece before promotion),
promote if needed, relocate the piece, flip the side to move, and set
`gameOver` when the new side to move is checkmated (`if (isCheckmate)
this.gameOver = true`; otherwise the flag is left as it was).  The source
assumes a piece occupies the origin (all callers check `isValidMove`
first); with an empty origin it would fault, modelled here as the
identity. -/
def movePiece (g : Game) (fromRow fromCol toRow toCol : Fin 8) : Game :=
  match g.board fromRow fromCol with
  | none => g
  | some piece =>
    let capturedPiece := g.board toRow toCol
    let entry : MoveRecord := ⟨fromRow, fromCol, toRow, toCol, piece, capturedPiece⟩
    let piece2 := promoteIfNeeded piece toRow
    let b2 := (g.board.set toRow toCol (some piece2)).set fromRow fromCol none
    let nextPlayer := g.currentPlayer.opposite
    let isCheck := isKingInCheck b2 nextPlayer
    let isMate := isCheck && isCheckmate b2 nextPlayer
    { board := b2
      currentPlayer := nextPlayer
      gameOver := g.gameOver || isMate
      moveHistory := g.moveHistory ++ [entry] }

/-- One iteration of the source's `undoMove` loop (the `movesToUndo = 1`
case): pop the last record, restore the moved piece to its origin and the
captured piece (or empty) to the destination, flip the side to move back,
and clear the terminal flag. -/
def undoMove (g : Game) : Game :=
  match g.moveHistory.getLast? with
  | none => g
  | some entry =>
    { board := (g.board.set entry.fromRow entry.fromCol (some entry.piece)).set
        entry.toRow entry.toCol entry.capturedPiece
      currentPlayer := g.currentPlayer.opposite
      gameOver := false
      moveHistory := g.moveHistory.dropLast }

/-- A move `{fromRow, fromCol, toRow, toCol}` as produced by the AI. -/
structure Move where
  fromRow : Fin 8
  fromCol : Fin 8
  toRow : Fin 8
  toCol : Fin 8
deriving DecidableEq, Repr

/-- Source `getPieceValue`: the material value of each piece kind. -/
def getPieceValue : PieceType → Int
  | .pawn => 1
  | .knight => 3
  | .bishop => 3
  | .rook => 5
  | .queen => 9
  | .king => 100

/-- Inner destination loop of `getAllLegalMoves` for one piece: each
pseudo-legal move is tentatively applied, discarded if it leaves the own
king in check, and the board restored; surviving moves are appended in
row-major destination order. -/
def legalFrom (color : Color) (fromRow fromCol : Fin 8) (piece : Piece) :
    List (Fin 8 × Fin 8) → Board → List Move → List Move × Board
  | [], b, acc => (acc, b)
  | (toRow, toCol) :: rest, b, acc =>
    if isValidMove b fromRow fromCol toRow toCol then
      let originalTarget := b toRow toCol
      let b1 := (b.set toRow toCol (some piece)).set fromRow fromCol none
      let kingInCheck := isKingInCheck b1 color
      let b2 := (b1.set fromRow fromCol (some piece)).set toRow toCol originalTarget
      legalFrom color fromRow fromCol piece rest b2
        (if !kingInCheck then acc ++ [⟨fromRow, fromCol, toRow, toCol⟩] else acc)
    else legalFrom color fromRow fromCol piece rest b acc

/-- Outer origin loop of `getAllLegalMoves`, row-major over origins. -/
def legalScan (color : Color) : List (Fin 8 × Fin 8) → Board → List Move → List Move × Board
  | [], b, acc => (acc, b)
  | (fromRow, fromCol) :: rest, b, acc =>
    match b fromRow fromCol with
    | some piece =>
      if piece.color = color then
        let r1 := legalFrom color fromRow fromCol piece allPairs b acc
        legalScan color rest r1.2 r1.1
      else legalScan color rest b acc
    | none => legalScan color rest b acc

/-- Source `getAllLegalMoves` with the board threading made explicit. -/
def getAllLegalMovesT (b : Board) (color : Color) : List Move × Board :=
  legalScan color allPairs b []

/-- The move list returned by `getAllLegalMoves`. -/
def getAllLegalMoves (b : Board) (color : Color) : List Move :=
  (getAllLegalMovesT b color).1

/-- The nested material loop of `evaluatePosition`: add each own piece's
value and subtract each opposing piece's value. -/
def materialFold (b : Board) (aiColor : Color) : Int :=
  allSquares.foldl
    (fun s r =>
      allSquares.foldl
        (fun s c =>
          match b r c with
          | some p =>
            if p.color = aiColor then s + getPieceValue p.type
            else s - getPieceValue p.type
          | none => s)
        s)
    0

/-- Source `evaluatePosition`: material plus check/checkmate bonuses for the
opponent being attacked and penalties for the AI being attacked. -/
def evaluatePosition (b : Board) (aiColor : Color) : Int :=
  let score := materialFold b aiColor
  let score :=
    if isKingInCheck b aiColor.opposite then
      score + 50 + (if isCheckmate b aiColor.opposite then 1000 else 0)
    else score
  let score :=
    if isKingInCheck b aiColor then
      score - 50 - (if isCheckmate b aiColor then 1000 else 0)
    else score
  score

/-- Stand-in for JavaScript's `Infinity` in the search: every reachable
evaluation score has absolute value at most 7450, far below this bound. -/
def INF : Int := 1000000

/-- The maximizing move loop of `minimax`: apply the move, evaluate the
child with `recEval` (the depth-decremented search), restore the board,
fold with `max`, raise `alpha` and stop once `beta ≤ alpha`. -/
def maxLoopT (recEval : Board → Int → Int → Int × Board) :
    List Move → Board → Int → Int → Int → Int × Board
  | [], b, maxEval, _, _ => (maxEval, b)
  | m :: rest, b, maxEval, alpha, beta =>
    let originalTarget := b m.toRow m.toCol
    let movingPiece := b m.fromRow m.fromCol
    let b1 := (b.set m.toRow m.toCol movingPiece).set m.fromRow m.fromCol none
    let r1 := recEval b1 alpha beta
    let b2 := (r1.2.set m.fromRow m.fromCol movingPiece).set m.toRow m.toCol originalTarget
    let maxEval2 := max maxEval r1.1
    let alpha2 := max alpha r1.1
    if beta ≤ alpha2 then (maxEval2, b2)
    else maxLoopT recEval rest b2 maxEval2 alpha2 beta

/-- The minimizing move loop of `minimax`, symmetric to `maxLoopT`. -/
def minLoopT (recEval : Board → Int → Int → Int × Board) :
    List Move → Board → Int → Int → Int → Int × Board
  | [], b, minEval, _, _ => (minEval, b)
  | m :: rest, b, minEval, alpha, beta =>
    let originalTarget := b m.toRow m.toCol
    let movingPiece := b m.fromRow m.fromCol
    let b1 := (b.set m.toRow m.toCol movingPiece).set m.fromRow m.fromCol none
    let r1 := recEval b1 alpha beta
    let b2 := (r1.2.set m.fromRow m.fromCol movingPiece).set m.toRow m.toCol originalTarget
    let minEval2 := min minEval r1.1
    let beta2 := min beta r1.1
    if beta2 ≤ alpha then (minEval2, b2)
    else minLoopT recEval rest b2 minEval2 alpha beta2

/-- Source `minimax` with the board threading made explicit.  At depth 0 or a
terminal flag it returns the static evaluation; with no legal moves it
scores checkmate as ∓1000 and stalemate as 0; otherwise it runs the
alpha-beta move loop for the side whose turn it is. -/
def minimaxT (gameOver : Bool) (aiColor : Color) :
    Nat → Board → Int → Int → Bool → Int × Board
  | 0, b, _, _, _ => (evaluatePosition b aiColor, b)
  | depth + 1, b, alpha, beta, isMaximizing =>
    if gameOver then (evaluatePosition b aiColor, b)
    else
      let currentColor := if isMaximizing then aiColor else aiColor.opposite
      let r0 := getAllLegalMovesT b currentColor
      if r0.1.isEmpty then
        (if isKingInCheck r0.2 currentColor then (if isMaximizing then -1000 else 1000)
         else 0, r0.2)
      else if isMaximizing then
        maxLoopT (fun b1 a1 b1' => minimaxT gameOver aiColor depth b1 a1 b1' false)
          r0.1 r0.2 (-INF) alpha beta
      else
        minLoopT (fun b1 a1 b1' => minimaxT gameOver aiColor depth b1 a1 b1' true)
          r0.1 r0.2 INF alpha beta

/-- The scoring map of `getMediumMove`: each legal move scores the value of
any captured piece plus 10 if tentatively applying it puts the opponent in
check; the board is mutated and restored per move. -/
def scoreMovesT (aiColor : Color) : List Move → Board → List (Move × Int) → List (Move × Int) × Board
  | [], b, acc => (acc, b)
  | m :: rest, b, acc =>
    let score0 : Int :=
      match b m.toRow m.toCol with
      | some target => getPieceValue target.type
      | none => 0
    let originalTarget := b m.toRow m.toCol
    let movingPiece := b m.fromRow m.fromCol
    let b1 := (b.set m.toRow m.toCol movingPiece).set m.fromRow m.fromCol none
    let score1 := if isKingInCheck b1 aiColor.opposite then score0 + 10 else score0
    let b2 := (b1.set m.fromRow m.fromCol movingPiece).set m.toRow m.toCol originalTarget
    scoreMovesT aiColor rest b2 (acc ++ [(m, score1)])

/-- Source `getRandomMove` (easy tier): `null` with no legal moves, otherwise a
randomly indexed legal move; the `Math.random()` draw is modelled by an
arbitrary `pick` reduced modulo the move count. -/
def getRandomMove (b : Board) (aiColor : Color) (pick : Nat) : Option Move :=
  let moves := getAllLegalMoves b aiColor
  if moves.length = 0 then none
  else moves[pick % moves.length]?

/-- Source `getMediumMove` (medium tier): `null` with no legal moves; otherwise
score the moves, sort stably by descending score, and take the best
(`Math.random() < 0.8`, modelled by `pickBest`) or a random legal move. -/
def getMediumMove (b : Board) (aiColor : Color) (pickBest : Bool) (pick : Nat) : Option Move :=
  let moves := getAllLegalMoves b aiColor
  if moves.length = 0 then none
  else
    let scored := (scoreMovesT aiColor moves b []).1
    let sorted := scored.mergeSort fun x y => decide (y.2 ≤ x.2)
    if pickBest then sorted.head?.map Prod.fst
    else moves[pick % moves.length]?

/-- The move loop of `getHardMove`: apply each legal move, score the
resulting position with a depth-3 minimizing search, restore the board,
and keep the strictly best score (first seen wins ties). -/
def hardLoop (gameOver : Bool) (aiColor : Color) :
    List Move → Board → Option Move → Int → Option Move × Board
  | [], b, bestMove, _ => (bestMove, b)
  | m :: rest, b, bestMove, bestScore =>
    let originalTarget := b m.toRow m.toCol
    let movingPiece := b m.fromRow m.fromCol
    let b1 := (b.set m.toRow m.toCol movingPiece).set m.fromRow m.fromCol none
    let r1 := minimaxT gameOver aiColor 3 b1 (-INF) INF false
    let b2 := (r1.2.set m.fromRow m.fromCol movingPiece).set m.toRow m.toCol originalTarget
    if bestScore < r1.1 then hardLoop gameOver aiColor rest b2 (some m) r1.1
    else hardLoop gameOver aiColor rest b2 bestMove bestScore

/-- Source `getHardMove` (hard tier) with board threading: `null` with no legal
moves, otherwise the minimax-scored best move. -/
def getHardMoveT (b : Board) (gameOver : Bool) (aiColor : Color) : Option Move × Board :=
  let r0 := getAllLegalMovesT b aiColor
  match r0.1 with
  | [] => (none, r0.2)
  | _ :: _ => hardLoop gameOver aiColor r0.1 r0.2 none (-INF)

/-- The difficulty setting consumed by `getBestMove`. -/
inductive Difficulty where
  | easy
  | medium
  | hard
deriving DecidableEq, Repr

/-- Source `getBestMove`: dispatch on the difficulty tier. -/
def getBestMove (b : Board) (gameOver : Bool) (aiColor : Color) (difficulty : Difficulty)
    (pickBest : Bool) (pick : Nat) : Option Move :=
  match difficulty with
  | .easy => getRandomMove b aiColor pick
  | .medium => getMediumMove b aiColor pickBest pick
  | .hard => (getHardMoveT b gameOver aiColor).1

/-! Spec-side definitions (from the claims' words) and concrete positions
used as witnesses and counterexamples. -/

/-- The 20 canonical opening moves of the side that moves first (white):
its 16 one- and two-step pawn pushes and 4 knight moves, as quadruples
`(fromRow, fromCol, toRow, toCol)`.  From the claim's words. -/
def whiteOpeningMoves : List (Fin 8 × Fin 8 × Fin 8 × Fin 8) :=
  [(6, 0, 5, 0), (6, 0, 4, 0), (6, 1, 5, 1), (6, 1, 4, 1),
   (6, 2, 5, 2), (6, 2, 4, 2), (6, 3, 5, 3), (6, 3, 4, 3),
   (6, 4, 5, 4), (6, 4, 4, 4), (6, 5, 5, 5), (6, 5, 4, 5),
   (6, 6, 5, 6), (6, 6, 4, 6), (6, 7, 5, 7), (6, 7, 4, 7),
   (7, 1, 5, 0), (7, 1, 5, 2), (7, 6, 5, 5), (7, 6, 5, 7)]

/-- Black's mirror-image 20 opening moves, which `isValidMove` accepts as
well since it never consults the side to move. -/
def blackOpeningMoves : List (Fin 8 × Fin 8 × Fin 8 × Fin 8) :=
  [(1, 0, 2, 0), (1, 0, 3, 0), (1, 1, 2, 1), (1, 1, 3, 1),
   (1, 2, 2, 2), (1, 2, 3, 2), (1, 3, 2, 3), (1, 3, 3, 3),
   (1, 4, 2, 4), (1, 4, 3, 4), (1, 5, 2, 5), (1, 5, 3, 5),
   (1, 6, 2, 6), (1, 6, 3, 6), (1, 7, 2, 7), (1, 7, 3, 7),
   (0, 1, 2, 0), (0, 1, 2, 2), (0, 6, 2, 5), (0, 6, 2, 7)]

/-- How many kings of the given color the board holds (spec-side, for the
one-king-per-side precondition). -/
def kingCount (b : Board) (color : Color) : Nat :=
  (allPairs.filter fun rc =>
    match b rc.1 rc.2 with
    | some p => decide (p.type = PieceType.king ∧ p.color = color)
    | none => false).length

/-- The signed material value of one square (spec-side reading of the
evaluation: positive for the AI's pieces, negative for the opponent's). -/
def cellValue (b : Board) (aiColor : Color) (r c : Fin 8) : Int :=
  match b r c with
  | some p => if p.color = aiColor then getPieceValue p.type else -(getPieceValue p.type)
  | none => 0

/-- The empty board. -/
def emptyBoard : Board := fun _ _ => none

/-- Black king cornered at (0,0) with a white queen at (1,2): black is not
in check but has no legal move (stalemate). -/
def staleBoard : Board :=
  ((emptyBoard.set 0 0 (some ⟨.king, .black⟩)).set 1 2
    (some ⟨.queen, .white⟩)).set 7 7 (some ⟨.king, .white⟩)

/-- The position one white queen move before `staleBoard`. -/
def stalePreBoard : Board :=
  ((emptyBoard.set 0 0 (some ⟨.king, .black⟩)).set 1 5
    (some ⟨.queen, .white⟩)).set 7 7 (some ⟨.king, .white⟩)

/-- The game about to play the stalemating queen move (1,5) → (1,2). -/
def staleGame : Game := ⟨stalePreBoard, .white, false, []⟩

/-- A fresh game on the standard starting position. -/
def initialGame : Game := ⟨createBoard, .white, false, []⟩

/-- A position where the white pawn on (1,3) can capture the black rook on
(0,4) and auto-promote (used to witness the apply/undo round trip through
a capturing promotion). -/
def promoBoard : Board :=
  (((emptyBoard.set 1 3 (some ⟨.pawn, .white⟩)).set 0 4
    (some ⟨.rook, .black⟩)).set 7 7 (some ⟨.king, .white⟩)).set 7 0
    (some ⟨.king, .black⟩)

/-- The game about to play the promoting capture (1,3) → (0,4). -/
def promoGame : Game := ⟨promoBoard, .white, false, []⟩

/-! Helper lemmas. -/

theorem opposite_opposite (c : Color) : c.opposite.opposite = c := by
  cases c <;> rfl

/-- The write-write-restore cycle used by every tentative move: applying
`board[to] = x; board[from] = null` and then restoring
`board[from] = (old from); board[to] = (old to)` is the identity. -/
theorem set_roundtrip (b : Board) (fr fc tr tc : Fin 8) (x y : Option Piece)
    (hy : b fr fc = y) :
    (((b.set tr tc x).set fr fc none).set fr fc y).set tr tc (b tr tc) = b := by
  funext r c
  simp only [Board.set]
  by_cases h1 : r = tr ∧ c = tc
  · simp [h1.1, h1.2]
  · by_cases h2 : r = fr ∧ c = fc
    · simp [h1, h2.1, h2.2, ← hy]
      intro h3 h4
      rw [← h3, ← h4]
    · simp [h1, h2]

/-- A move validated by `isValidMove` starts from an occupied square. -/
theorem isValidMove_origin_occupied (b : Board) (fr fc tr tc : Fin 8)
    (h : isValidMove b fr fc tr tc = true) : ∃ p, b fr fc = some p := by
  cases hb : b fr fc with
  | none => rw [isValidMove, hb] at h; exact absurd h (by simp)
  | some p => exact ⟨p, rfl⟩

/-- C10 helper, stated as the reusable lemma form. -/
theorem isValidMove_refl_false (b : Board) (r c : Fin 8) :
    isValidMove b r c r c = false := by
  cases hb : b r c with
  | none => rw [isValidMove, hb]
  | some p => rw [isValidMove, hb]; simp [sameColorAt, hb]

/-! Claim theorems. -/

/-- C10: for every board and square, `isValidMove` with equal origin and
destination returns false — an empty origin has no piece to move and an
occupied origin makes the destination a same-side-occupied square, so a
null move is never accepted for any piece kind. -/
theorem C10_null_move_rejected (b : Board) (r c : Fin 8) :
    isValidMove b r c r c = false :=
  isValidMove_refl_false b r c

/-- C1: applying a valid move with `movePiece` and then undoing it via the
recorded history entry restores the exact prior board (including a
captured piece on the destination and a promoted pawn's original type,
since the history snapshot is taken before promotion) and restores the
side to move and the move history. -/
theorem C1_apply_undo_roundtrip (g : Game) (fr fc tr tc : Fin 8)
    (hv : isValidMove g.board fr fc tr tc = true) :
    (undoMove (movePiece g fr fc tr tc)).board = g.board
    ∧ (undoMove (movePiece g fr fc tr tc)).currentPlayer = g.currentPlayer
    ∧ (undoMove (movePiece g fr fc tr tc)).moveHistory = g.moveHistory := by
  obtain ⟨p, hp⟩ := isValidMove_origin_occupied _ _ _ _ _ hv
  simp only [movePiece, hp, undoMove, List.getLast?_concat]
  refine ⟨?_, opposite_opposite _, by simp⟩
  exact set_roundtrip g.board fr fc tr tc _ (some p) hp

/-- C1 witness: the round trip at a concrete capturing promotion move. -/
theorem C1_witness :
    isValidMove promoGame.board 1 3 0 4 = true
    ∧ ((undoMove (movePiece promoGame 1 3 0 4)).board = promoGame.board
      ∧ (undoMove (movePiece promoGame 1 3 0 4)).currentPlayer = promoGame.currentPlayer
      ∧ (undoMove (movePiece promoGame 1 3 0 4)).moveHistory = promoGame.moveHistory) :=
  ⟨by decide, C1_apply_undo_roundtrip promoGame 1 3 0 4 (by decide)⟩

/-- C9: a `movePiece` call on a valid move changes only the origin square
(emptied) and the destination square (which receives the moved, possibly
promoted, piece), and appends exactly one record to the move history. -/
theorem C9_movePiece_frame (g : Game) (fr fc tr tc : Fin 8) (p : Piece)
    (hp : g.board fr fc = some p)
    (hv : isValidMove g.board fr fc tr tc = true) :
    (∀ r c : Fin 8, ¬(r = fr ∧ c = fc) → ¬(r = tr ∧ c = tc) →
      (movePiece g fr fc tr tc).board r c = g.board r c)
    ∧ (movePiece g fr fc tr tc).board fr fc = none
    ∧ (movePiece g fr fc tr tc).board tr tc = some (promoteIfNeeded p tr)
    ∧ (movePiece g fr fc tr tc).moveHistory
      = g.moveHistory ++ [⟨fr, fc, tr, tc, p, g.board tr tc⟩] := by
  have hne : ¬(tr = fr ∧ tc = fc) := by
    rintro ⟨h1, h2⟩
    rw [h1, h2, isValidMove_refl_false] at hv
    exact absurd hv (by simp)
  simp only [movePiece, hp]
  refine ⟨?_, ?_, ?_, ?_⟩
  · intro r c h1 h2
    simp [Board.set, h1, h2]
  · simp [Board.set]
  · simp [Board.set, hne]
  · simp

/-- C9 witness: the frame property at the opening pawn push (6,0) → (5,0). -/
theorem C9_witness :
    initialGame.board 6 0 = some ⟨.pawn, .white⟩
    ∧ isValidMove initialGame.board 6 0 5 0 = true
    ∧ ((∀ r c : Fin 8, ¬(r = 6 ∧ c = 0) → ¬(r = 5 ∧ c = 0) →
        (movePiece initialGame 6 0 5 0).board r c = initialGame.board r c)
      ∧ (movePiece initialGame 6 0 5 0).board 6 0 = none
      ∧ (movePiece initialGame 6 0 5 0).board 5 0
          = some (promoteIfNeeded ⟨.pawn, .white⟩ 5)
      ∧ (movePiece initialGame 6 0 5 0).moveHistory
          = initialGame.moveHistory
            ++ [⟨6, 0, 5, 0, ⟨.pawn, .white⟩, initialGame.board 5 0⟩]) :=
  ⟨by decide, by decide,
    C9_movePiece_frame initialGame 6 0 5 0 ⟨.pawn, .white⟩ (by decide) (by decide)⟩

/-- Function `isCheckmate` already returns false when the side is not in check, so
conjoining it with the check test is the identity. -/
theorem check_and_checkmate (b : Board) (c : Color) :
    (isKingInCheck b c && isCheckmate b c) = isCheckmate b c := by
  cases hk : isKingInCheck b c
  · simp [isCheckmate, isCheckmateT, hk]
  · simp

/-- C8 counterexample: the queen move (1,5) → (1,2) of `staleGame` leaves
black (the new side to move) stalemated — not in check and without a legal
move — yet `movePiece` leaves `gameOver` false, so the game is not flagged
terminal exactly when the resulting position is checkmate or stalemate. -/
theorem C8_counterexample :
    (movePiece staleGame 1 5 1 2).currentPlayer = Color.black
    ∧ isKingInCheck (movePiece staleGame 1 5 1 2).board Color.black = false
    ∧ getAllLegalMoves (movePiece staleGame 1 5 1 2).board Color.black = []
    ∧ (movePiece staleGame 1 5 1 2).gameOver = false := by
  decide

/-- C8 (amended): after a `movePiece` on a valid move from a non-terminal
state, the game is flagged terminal exactly when the new side to move is
checkmated; stalemate does not set the flag, and check alone leaves the
game in progress. -/
theorem C8_gameOver_iff_checkmate (g : Game) (fr fc tr tc : Fin 8)
    (hg : g.gameOver = false)
    (hv : isValidMove g.board fr fc tr tc = true) :
    (movePiece g fr fc tr tc).gameOver
      = isCheckmate (movePiece g fr fc tr tc).board
          (movePiece g fr fc tr tc).currentPlayer := by
  obtain ⟨p, hp⟩ := isValidMove_origin_occupied _ _ _ _ _ hv
  simp only [movePiece, hp, hg, Bool.false_or]
  exact check_and_checkmate _ _

/-- C8 witness: the amended law at the concrete stalemating queen move. -/
theorem C8_witness :
    staleGame.gameOver = false
    ∧ isValidMove staleGame.board 1 5 1 2 = true
    ∧ (movePiece staleGame 1 5 1 2).gameOver
        = isCheckmate (movePiece staleGame 1 5 1 2).board
            (movePiece staleGame 1 5 1 2).currentPlayer :=
  ⟨rfl, by decide, C8_gameOver_iff_checkmate staleGame 1 5 1 2 rfl (by decide)⟩

/-- C2 counterexample: on the initial board `isValidMove` also accepts
black's pawn push (1,0) → (2,0), which is not among the 20 canonical
opening moves of the side that moves first, so it does not return false
for every pair outside those 20. -/
theorem C2_counterexample :
    isValidMove createBoard 1 0 2 0 = true
    ∧ ((1 : Fin 8), (0 : Fin 8), (2 : Fin 8), (0 : Fin 8)) ∉ whiteOpeningMoves := by
  decide

set_option maxHeartbeats 4000000 in
/-- Row 0 slice of the initial-board move table: for every origin on row
0 and every destination, `isValidMove` agrees with membership in the
40-move opening list (kernel computation). -/
theorem C2_row0 : ((allSquares.map fun c => ((0 : Fin 8), c)).all fun ff =>
    allPairs.all fun tt =>
      isValidMove createBoard ff.1 ff.2 tt.1 tt.2
        == decide ((ff.1, ff.2, tt.1, tt.2) ∈ whiteOpeningMoves ++ blackOpeningMoves)) = true := by
  rfl

set_option maxHeartbeats 4000000 in
/-- Row 1 slice of the initial-board move table: for every origin on row
1 and every destination, `isValidMove` agrees with membership in the
40-move opening list (kernel computation). -/
theorem C2_row1 : ((allSquares.map fun c => ((1 : Fin 8), c)).all fun ff =>
    allPairs.all fun tt =>
      isValidMove createBoard ff.1 ff.2 tt.1 tt.2
        == decide ((ff.1, ff.2, tt.1, tt.2) ∈ whiteOpeningMoves ++ blackOpeningMoves)) = true := by
  rfl

set_option maxHeartbeats 4000000 in
/-- Row 2 slice of the initial-board move table: for every origin on row
2 and every destination, `isValidMove` agrees with membership in the
40-move opening list (kernel computation). -/
theorem C2_row2 : ((allSquares.map fun c => ((2 : Fin 8), c)).all fun ff =>
    allPairs.all fun tt =>
      isValidMove createBoard ff.1 ff.2 tt.1 tt.2
        == decide ((ff.1, ff.2, tt.1, tt.2) ∈ whiteOpeningMoves ++ blackOpeningMoves)) = true := by
  rfl

set_option maxHeartbeats 4000000 in
/-- Row 3 slice of the initial-board move table: for every origin on row
3 and every destination, `isValidMove` agrees with membership in the
40-move opening list (kernel computation). -/
theorem C2_row3 : ((allSquares.map fun c => ((3 : Fin 8), c)).all fun ff =>
    allPairs.all fun tt =>
      isValidMove createBoard ff.1 ff.2 tt.1 tt.2
        == decide ((ff.1, ff.2, tt.1, tt.2) ∈ whiteOpeningMoves ++ blackOpeningMoves)) = true := by
  rfl

set_option maxHeartbeats 4000000 in
/-- Row 4 slice of the initial-board move table: for every origin on row
4 and every destination, `isValidMove` agrees with membership in the
40-move opening list (kernel computation). -/
theorem C2_row4 : ((allSquares.map fun c => ((4 : Fin 8), c)).all fun ff =>
    allPairs.all fun tt =>
      isValidMove createBoard ff.1 ff.2 tt.1 tt.2
        == decide ((ff.1, ff.2, tt.1, tt.2) ∈ whiteOpeningMoves ++ blackOpeningMoves)) = true := by
  rfl

set_option maxHeartbeats 4000000 in
/-- Row 5 slice of the initial-board move table: for every origin on row
5 and every destination, `isValidMove` agrees with membership in the
40-move opening list (kernel computation). -/
theorem C2_row5 : ((allSquares.map fun c => ((5 : Fin 8), c)).all fun ff =>
    allPairs.all fun tt =>
      isValidMove createBoard ff.1 ff.2 tt.1 tt.2
        == decide ((ff.1, ff.2, tt.1, tt.2) ∈ whiteOpeningMoves ++ blackOpeningMoves)) = true := by
  rfl

set_option maxHeartbeats 4000000 in
/-- Row 6 slice of the initial-board move table: for every origin on row
6 and every destination, `isValidMove` agrees with membership in the
40-move opening list (kernel computation). -/
theorem C2_row6 : ((allSquares.map fun c => ((6 : Fin 8), c)).all fun ff =>
    allPairs.all fun tt =>
      isValidMove createBoard ff.1 ff.2 tt.1 tt.2
        == decide ((ff.1, ff.2, tt.1, tt.2) ∈ whiteOpeningMoves ++ blackOpeningMoves)) = true := by
  rfl

set_option maxHeartbeats 4000000 in
/-- Row 7 slice of the initial-board move table: for every origin on row
7 and every destination, `isValidMove` agrees with membership in the
40-move opening list (kernel computation). -/
theorem C2_row7 : ((allSquares.map fun c => ((7 : Fin 8), c)).all fun ff =>
    allPairs.all fun tt =>
      isValidMove createBoard ff.1 ff.2 tt.1 tt.2
        == decide ((ff.1, ff.2, tt.1, tt.2) ∈ whiteOpeningMoves ++ blackOpeningMoves)) = true := by
  rfl

/-- Every square pair is enumerated by the nested scan loops. -/
theorem mem_allPairs (x : Fin 8 × Fin 8) : x ∈ allPairs := by
  revert x
  decide

/-- Every square index is enumerated by `allSquares`. -/
theorem mem_allSquares (a : Fin 8) : a ∈ allSquares := by
  revert a
  decide

/-- C2 (amended): `isValidMove` never consults the side to move, so on the
initial board it returns true exactly for the 40 moves consisting of each
side's 16 one- and two-step pawn pushes and 4 knight moves, and false for
every other coordinate pair. -/
theorem C2_initial_board_moves (fromRow fromCol toRow toCol : Fin 8) :
    isValidMove createBoard fromRow fromCol toRow toCol = true
      ↔ (fromRow, fromCol, toRow, toCol) ∈ whiteOpeningMoves ++ blackOpeningMoves := by
  have hrow : ((allSquares.map fun c => (fromRow, c)).all fun ff =>
      allPairs.all fun tt =>
        isValidMove createBoard ff.1 ff.2 tt.1 tt.2
          == decide ((ff.1, ff.2, tt.1, tt.2) ∈ whiteOpeningMoves ++ blackOpeningMoves)) = true := by
    fin_cases fromRow
    · exact C2_row0
    · exact C2_row1
    · exact C2_row2
    · exact C2_row3
    · exact C2_row4
    · exact C2_row5
    · exact C2_row6
    · exact C2_row7
  rw [List.all_eq_true] at hrow
  have h1 := hrow (fromRow, fromCol) (List.mem_map_of_mem _ (mem_allSquares fromCol))
  rw [List.all_eq_true] at h1
  have h2 := h1 (toRow, toCol) (mem_allPairs _)
  rw [beq_iff_eq] at h2
  dsimp only at h2
  rw [h2, decide_eq_true_eq]

/-! Board preservation of the tentative apply/undo pattern (claim C3). -/

theorem legalFrom_board (color : Color) (fr fc : Fin 8) (piece : Piece)
    (l : List (Fin 8 × Fin 8)) (b : Board) (acc : List Move)
    (hp : b fr fc = some piece) :
    (legalFrom color fr fc piece l b acc).2 = b := by
  induction l generalizing acc with
  | nil => rfl
  | cons hd tl ih =>
    obtain ⟨tr, tc⟩ := hd
    by_cases hm : isValidMove b fr fc tr tc = true
    · simp only [legalFrom, hm, if_true]
      rw [set_roundtrip b fr fc tr tc _ _ hp]
      exact ih _
    · simp only [legalFrom, hm, if_false]
      exact ih _

theorem legalScan_board (color : Color) (l : List (Fin 8 × Fin 8))
    (b : Board) (acc : List Move) :
    (legalScan color l b acc).2 = b := by
  induction l generalizing b acc with
  | nil => rfl
  | cons hd tl ih =>
    obtain ⟨fr, fc⟩ := hd
    rw [legalScan]
    cases hb : b fr fc with
    | none => exact ih b acc
    | some piece =>
      by_cases hc : piece.color = color
      · simp only [hc, if_true]
        rw [legalFrom_board color fr fc piece allPairs b acc hb]
        exact ih b _
      · simp only [hc, if_false]
        exact ih b acc

theorem getAllLegalMovesT_board (b : Board) (color : Color) :
    (getAllLegalMovesT b color).2 = b :=
  legalScan_board color allPairs b []

theorem escapeFrom_board (color : Color) (fr fc : Fin 8) (piece : Piece)
    (l : List (Fin 8 × Fin 8)) (b : Board)
    (hp : b fr fc = some piece) :
    (escapeFrom color fr fc piece l b).2 = b := by
  induction l with
  | nil => rfl
  | cons hd tl ih =>
    obtain ⟨tr, tc⟩ := hd
    by_cases hm : isValidMove b fr fc tr tc = true
    · simp only [escapeFrom, hm, if_true]
      rw [set_roundtrip b fr fc tr tc _ _ hp]
      split
      · rfl
      · exact ih
    · simp only [escapeFrom, hm, if_false]
      exact ih

theorem escapeScan_board (color : Color) (l : List (Fin 8 × Fin 8)) (b : Board) :
    (escapeScan color l b).2 = b := by
  induction l generalizing b with
  | nil => rfl
  | cons hd tl ih =>
    obtain ⟨fr, fc⟩ := hd
    rw [escapeScan]
    cases hb : b fr fc with
    | none => exact ih b
    | some piece =>
      by_cases hc : piece.color = color
      · simp only [hc, if_true]
        rw [escapeFrom_board color fr fc piece allPairs b hb]
        split
        · rfl
        · exact ih b
      · simp only [hc, if_false]
        exact ih b

theorem isCheckmateT_board (b : Board) (color : Color) :
    (isCheckmateT b color).2 = b := by
  rw [isCheckmateT]
  split
  · rfl
  · simp only []
    rw [escapeScan_board]

theorem scoreMovesT_board (aiColor : Color) (l : List Move) (b : Board)
    (acc : List (Move × Int)) :
    (scoreMovesT aiColor l b acc).2 = b := by
  induction l generalizing acc with
  | nil => rfl
  | cons m tl ih =>
    simp only [scoreMovesT]
    rw [set_roundtrip b m.fromRow m.fromCol m.toRow m.toCol _ _ rfl]
    exact ih _

theorem maxLoopT_board (recEval : Board → Int → Int → Int × Board)
    (hrec : ∀ b alpha beta, (recEval b alpha beta).2 = b)
    (l : List Move) (b : Board) (acc alpha beta : Int) :
    (maxLoopT recEval l b acc alpha beta).2 = b := by
  induction l generalizing b acc alpha with
  | nil => rfl
  | cons m tl ih =>
    simp only [maxLoopT]
    rw [hrec]
    rw [set_roundtrip b m.fromRow m.fromCol m.toRow m.toCol _ _ rfl]
    split
    · rfl
    · exact ih b _ _

theorem minLoopT_board (recEval : Board → Int → Int → Int × Board)
    (hrec : ∀ b alpha beta, (recEval b alpha beta).2 = b)
    (l : List Move) (b : Board) (acc alpha beta : Int) :
    (minLoopT recEval l b acc alpha beta).2 = b := by
  induction l generalizing b acc beta with
  | nil => rfl
  | cons m tl ih =>
    simp only [minLoopT]
    rw [hrec]
    rw [set_roundtrip b m.fromRow m.fromCol m.toRow m.toCol _ _ rfl]
    split
    · rfl
    · exact ih b _ _

theorem minimaxT_board (gameOver : Bool) (aiColor : Color) (depth : Nat) :
    ∀ (b : Board) (alpha beta : Int) (isMaximizing : Bool),
      (minimaxT gameOver aiColor depth b alpha beta isMaximizing).2 = b := by
  induction depth with
  | zero => intro b alpha beta isMax; rfl
  | succ d ih =>
    intro b alpha beta isMax
    rw [minimaxT]
    split
    · rfl
    · simp only [getAllLegalMovesT_board]
      split
      · split
        · rfl
        · exact maxLoopT_board _ (fun b' a' b'' => ih b' a' b'' false) _ _ _ _ _
      · split
        · rfl
        · exact minLoopT_board _ (fun b' a' b'' => ih b' a' b'' true) _ _ _ _ _

/-- C3: the query operations built on the tentative apply/undo pattern —
legal-move enumeration, checkmate detection, the medium-tier move scoring
map, and minimax search — all return with the board square-for-square
equal to its state on entry. -/
theorem C3_queries_preserve_board (b : Board) (color aiColor : Color)
    (ms : List Move) (acc : List (Move × Int)) (gameOver : Bool) (depth : Nat)
    (alpha beta : Int) (isMaximizing : Bool) :
    (getAllLegalMovesT b color).2 = b
    ∧ (isCheckmateT b color).2 = b
    ∧ (scoreMovesT aiColor ms b acc).2 = b
    ∧ (minimaxT gameOver aiColor depth b alpha beta isMaximizing).2 = b :=
  ⟨getAllLegalMovesT_board b color, isCheckmateT_board b color,
    scoreMovesT_board aiColor ms b acc,
    minimaxT_board gameOver aiColor depth b alpha beta isMaximizing⟩

/-! Characterization of the checkmate escape scan (claim C4). -/

theorem escapeFrom_fst (color : Color) (fr fc : Fin 8) (piece : Piece)
    (l : List (Fin 8 × Fin 8)) (b : Board) (hp : b fr fc = some piece) :
    (escapeFrom color fr fc piece l b).1
      = l.any fun tt =>
          isValidMove b fr fc tt.1 tt.2
            && !isKingInCheck ((b.set tt.1 tt.2 (some piece)).set fr fc none) color := by
  induction l with
  | nil => rfl
  | cons hd tl ih =>
    obtain ⟨tr, tc⟩ := hd
    by_cases hm : isValidMove b fr fc tr tc = true
    · simp only [escapeFrom, hm, if_true, List.any_cons]
      rw [set_roundtrip b fr fc tr tc _ _ hp]
      cases hcheck : isKingInCheck ((b.set tr tc (some piece)).set fr fc none) color
      · simp [hm, hcheck]
      · simp [hm, hcheck, ih]
    · simp only [escapeFrom, hm, if_false, List.any_cons]
      simp only [Bool.not_eq_true] at hm
      simp [hm, ih]

theorem escapeScan_fst (color : Color) (l : List (Fin 8 × Fin 8)) (b : Board) :
    (escapeScan color l b).1
      = l.any fun ff =>
          match b ff.1 ff.2 with
          | some piece =>
            decide (piece.color = color) && (escapeFrom color ff.1 ff.2 piece allPairs b).1
          | none => false := by
  induction l generalizing b with
  | nil => rfl
  | cons hd tl ih =>
    obtain ⟨fr, fc⟩ := hd
    rw [escapeScan, List.any_cons]
    cases hb : b fr fc with
    | none => simp [hb, ih]
    | some piece =>
      by_cases hc : piece.color = color
      · simp only [hc, if_true, hb]
        cases hfound : (escapeFrom color fr fc piece allPairs b).1
        · rw [escapeFrom_board color fr fc piece allPairs b hb]
          simp [hc, hfound, ih]
        · simp [hc, hfound]
      · simp [hb, hc, ih]

/-- C4: on a board with one king of each color, `isCheckmate` returns false
when the side is not in check, and otherwise returns true exactly when
every pseudo-legal move of that side's pieces, tentatively applied, leaves
the side's king in check. -/
theorem C4_isCheckmate_characterization (b : Board) (c : Color)
    (hk : kingCount b Color.white = 1 ∧ kingCount b Color.black = 1) :
    (isKingInCheck b c = false → isCheckmate b c = false)
    ∧ (isKingInCheck b c = true →
        (isCheckmate b c = true ↔
          ∀ (fr fc tr tc : Fin 8) (p : Piece),
            b fr fc = some p → p.color = c →
            isValidMove b fr fc tr tc = true →
            isKingInCheck ((b.set tr tc (some p)).set fr fc none) c = true)) := by
  constructor
  · intro h
    simp [isCheckmate, isCheckmateT, h]
  · intro h
    simp only [isCheckmate, isCheckmateT, h, Bool.not_true, Bool.false_eq_true,
      if_false]
    rw [escapeScan_fst]
    rw [Bool.not_eq_true', List.any_eq_false]
    constructor
    · intro hall fr fc tr tc p hp hpc hv
      have h1 := hall (fr, fc) (mem_allPairs _)
      simp only [hp] at h1
      rw [Bool.not_eq_true] at h1
      rw [escapeFrom_fst c fr fc p allPairs b hp] at h1
      cases hcheck : isKingInCheck ((b.set tr tc (some p)).set fr fc none) c
      · exfalso
        have h2 : (decide (p.color = c) && allPairs.any fun tt =>
            isValidMove b fr fc tt.1 tt.2
              && !isKingInCheck ((b.set tt.1 tt.2 (some p)).set fr fc none) c) = true := by
          rw [Bool.and_eq_true]
          refine ⟨decide_eq_true hpc, ?_⟩
          rw [List.any_eq_true]
          exact ⟨(tr, tc), mem_allPairs _, by simp [hv, hcheck]⟩
        rw [h1] at h2
        exact absurd h2 (by simp)
      · rfl
    · intro hf ff _
      obtain ⟨fr, fc⟩ := ff
      rw [Bool.not_eq_true]
      cases hb : b fr fc with
      | none => simp [hb]
      | some piece =>
        simp only [hb]
        by_cases hc : piece.color = c
        · have hG : (allPairs.any fun tt => isValidMove b fr fc tt.1 tt.2
              && !isKingInCheck ((b.set tt.1 tt.2 (some piece)).set fr fc none) c) = false := by
            rw [List.any_eq_false]
            intro tt _
            obtain ⟨tr, tc⟩ := tt
            rw [Bool.not_eq_true]
            by_cases hm : isValidMove b fr fc tr tc = true
            · have hcheck := hf fr fc tr tc piece hb hc hm
              simp [hm, hcheck]
            · simp only [Bool.not_eq_true] at hm
              simp [hm]
          rw [escapeFrom_fst c fr fc piece allPairs b hb, hG]
          simp
        · simp [hc]

/-- C4 witness: the characterization instantiated on the initial board. -/
theorem C4_witness :
    (kingCount createBoard Color.white = 1 ∧ kingCount createBoard Color.black = 1)
    ∧ ((isKingInCheck createBoard Color.white = false →
          isCheckmate createBoard Color.white = false)
      ∧ (isKingInCheck createBoard Color.white = true →
          (isCheckmate createBoard Color.white = true ↔
            ∀ (fr fc tr tc : Fin 8) (p : Piece),
              createBoard fr fc = some p → p.color = Color.white →
              isValidMove createBoard fr fc tr tc = true →
              isKingInCheck ((createBoard.set tr tc (some p)).set fr fc none)
                Color.white = true))) :=
  ⟨by decide, C4_isCheckmate_characterization createBoard Color.white (by decide)⟩

/-- C5: at positive depth with the game not flagged over, a minimax node
whose side to move has no legal move scores −1000 when that side is in
check at a maximizing node, +1000 when in check at a minimizing node, and
0 (a draw) when not in check. -/
theorem C5_minimax_no_moves (aiColor : Color) (d : Nat) (b : Board)
    (alpha beta : Int) (isMaximizing : Bool)
    (h : getAllLegalMoves b (if isMaximizing then aiColor else aiColor.opposite) = []) :
    (minimaxT false aiColor (d + 1) b alpha beta isMaximizing).1
      = if isKingInCheck b (if isMaximizing then aiColor else aiColor.opposite) then
          (if isMaximizing then -1000 else 1000)
        else 0 := by
  rw [minimaxT]
  have h2 : (getAllLegalMovesT b (if isMaximizing then aiColor else aiColor.opposite)).1
      = [] := h
  simp only [Bool.false_eq_true, if_false, h2, List.isEmpty_nil, if_true]
  rw [getAllLegalMovesT_board]

/-- C5 witness: the stalemate position scores 0 for the minimizing side. -/
theorem C5_witness :
    getAllLegalMoves staleBoard (if false then Color.white else Color.white.opposite) = []
    ∧ (minimaxT false Color.white (0 + 1) staleBoard 0 0 false).1
      = if isKingInCheck staleBoard (if false then Color.white else Color.white.opposite) then
          (if false then -1000 else 1000)
        else 0 :=
  ⟨by decide, C5_minimax_no_moves Color.white 0 staleBoard 0 0 false (by decide)⟩

/-! The material fold as a sum (claim C6). -/

theorem materialFold_inner (b : Board) (ai : Color) (r : Fin 8)
    (l : List (Fin 8)) (s : Int) :
    l.foldl (fun s c =>
      match b r c with
      | some p =>
        if p.color = ai then s + getPieceValue p.type else s - getPieceValue p.type
      | none => s) s
    = s + (l.map fun c => cellValue b ai r c).sum := by
  induction l generalizing s with
  | nil => simp
  | cons c tl ih =>
    rw [List.foldl_cons, List.map_cons, List.sum_cons, ih]
    cases hb : b r c with
    | none => simp [cellValue, hb]
    | some p =>
      by_cases hc : p.color = ai
      · simp only [cellValue, hb, hc, if_true]
        ring
      · simp only [cellValue, hb, hc, if_false]
        ring

theorem materialFold_eq_sum (b : Board) (ai : Color) :
    materialFold b ai = ∑ x : Fin 8 × Fin 8, cellValue b ai x.1 x.2 := by
  rw [materialFold]
  have houter : ∀ (l : List (Fin 8)) (s : Int),
      l.foldl (fun s r =>
        allSquares.foldl (fun s c =>
          match b r c with
          | some p =>
            if p.color = ai then s + getPieceValue p.type else s - getPieceValue p.type
          | none => s) s) s
      = s + (l.map fun r => ((allSquares.map fun c => cellValue b ai r c).sum)).sum := by
    intro l
    induction l with
    | nil => intro s; simp
    | cons r tl ih =>
      intro s
      rw [List.foldl_cons, List.map_cons, List.sum_cons, materialFold_inner, ih]
      ring
  rw [houter]
  rw [Fintype.sum_prod_type]
  simp [allSquares, Fin.sum_univ_def]

/-- C6: the static evaluation equals the signed sum of piece values over
all squares (positive for the AI's pieces, negative for the opponent's),
plus 50 when the opponent is in check and 1000 more when checkmated, minus
50 when the AI's own side is in check and 1000 more when checkmated. -/
theorem C6_evaluation_decomposition (b : Board) (ai : Color) :
    evaluatePosition b ai
      = (∑ x : Fin 8 × Fin 8, cellValue b ai x.1 x.2)
        + (if isKingInCheck b ai.opposite then 50 else 0)
        + (if isKingInCheck b ai.opposite ∧ isCheckmate b ai.opposite then 1000 else 0)
        - (if isKingInCheck b ai then 50 else 0)
        - (if isKingInCheck b ai ∧ isCheckmate b ai then 1000 else 0) := by
  by_cases h1 : isKingInCheck b ai.opposite = true <;>
    by_cases h2 : isCheckmate b ai.opposite = true <;>
    by_cases h3 : isKingInCheck b ai = true <;>
    by_cases h4 : isCheckmate b ai = true <;>
    simp [evaluatePosition, materialFold_eq_sum, h1, h2, h3, h4]

/-! Score bounds: every reachable evaluation stays far above `-INF`
(claim C7, hard tier). -/

theorem cellValue_lb (b : Board) (ai : Color) (r c : Fin 8) :
    -100 ≤ cellValue b ai r c := by
  rw [cellValue]
  cases b r c with
  | none => norm_num
  | some p =>
    have h1 : 0 ≤ getPieceValue p.type ∧ getPieceValue p.type ≤ 100 := by
      cases p.type <;> simp [getPieceValue]
    by_cases hc : p.color = ai <;> simp [hc] <;> omega

theorem materialFold_lb (b : Board) (ai : Color) : -6400 ≤ materialFold b ai := by
  rw [materialFold_eq_sum]
  have h1 : (∑ _x : Fin 8 × Fin 8, (-100 : Int)) ≤ ∑ x : Fin 8 × Fin 8, cellValue b ai x.1 x.2 :=
    Finset.sum_le_sum fun x _ => cellValue_lb b ai x.1 x.2
  have h2 : (∑ _x : Fin 8 × Fin 8, (-100 : Int)) = -6400 := by
    simp [Finset.sum_const, Finset.card_univ]
  omega

theorem evaluatePosition_lb (b : Board) (ai : Color) :
    -7450 ≤ evaluatePosition b ai := by
  have hm := materialFold_lb b ai
  rw [evaluatePosition]
  by_cases h1 : isKingInCheck b ai.opposite = true <;>
    by_cases h2 : isCheckmate b ai.opposite = true <;>
    by_cases h3 : isKingInCheck b ai = true <;>
    by_cases h4 : isCheckmate b ai = true <;>
    simp [h1, h2, h3, h4] <;> omega

theorem maxLoopT_lb (recEval : Board → Int → Int → Int × Board) :
    ∀ (l : List Move) (b : Board) (acc alpha beta : Int),
      -7450 ≤ acc → -7450 ≤ (maxLoopT recEval l b acc alpha beta).1 := by
  intro l
  induction l with
  | nil => intro b acc alpha beta hacc; exact hacc
  | cons m tl ih =>
    intro b acc alpha beta hacc
    simp only [maxLoopT]
    split
    · exact le_trans hacc (le_max_left _ _)
    · exact ih _ _ _ _ (le_trans hacc (le_max_left _ _))

theorem maxLoopT_lb_ne (recEval : Board → Int → Int → Int × Board)
    (hrec : ∀ b alpha beta, -7450 ≤ (recEval b alpha beta).1)
    (l : List Move) (b : Board) (acc alpha beta : Int) (hl : l ≠ []) :
    -7450 ≤ (maxLoopT recEval l b acc alpha beta).1 := by
  cases l with
  | nil => exact absurd rfl hl
  | cons m tl =>
    simp only [maxLoopT]
    split
    · exact le_trans (hrec _ _ _) (le_max_right _ _)
    · exact maxLoopT_lb recEval tl _ _ _ _ (le_trans (hrec _ _ _) (le_max_right _ _))

theorem minLoopT_lb (recEval : Board → Int → Int → Int × Board)
    (hrec : ∀ b alpha beta, -7450 ≤ (recEval b alpha beta).1) :
    ∀ (l : List Move) (b : Board) (acc alpha beta : Int),
      -7450 ≤ acc → -7450 ≤ (minLoopT recEval l b acc alpha beta).1 := by
  intro l
  induction l with
  | nil => intro b acc alpha beta hacc; exact hacc
  | cons m tl ih =>
    intro b acc alpha beta hacc
    simp only [minLoopT]
    split
    · exact le_min hacc (hrec _ _ _)
    · exact ih _ _ _ _ (le_min hacc (hrec _ _ _))

theorem minimaxT_lb (gameOver : Bool) (aiColor : Color) (depth : Nat) :
    ∀ (b : Board) (alpha beta : Int) (isMaximizing : Bool),
      -7450 ≤ (minimaxT gameOver aiColor depth b alpha beta isMaximizing).1 := by
  induction depth with
  | zero => intro b alpha beta isMax; exact evaluatePosition_lb b aiColor
  | succ d ih =>
    intro b alpha beta isMax
    rw [minimaxT]
    split
    · exact evaluatePosition_lb b aiColor
    · split
      · dsimp only
        split
        · dsimp only
          split <;> norm_num
        · next h =>
          exact maxLoopT_lb_ne _ (fun b' a' b'' => ih b' a' b'' false) _ _ _ _ _
            (fun heq => h (by rw [heq]; rfl))
      · dsimp only
        split
        · dsimp only
          split <;> norm_num
        · exact minLoopT_lb _ (fun b' a' b'' => ih b' a' b'' true) _ _ _ _ _
            (by rw [INF]; omega)

theorem hardLoop_some (gameOver : Bool) (aiColor : Color) :
    ∀ (l : List Move) (b : Board) (m : Move) (bs : Int),
      (hardLoop gameOver aiColor l b (some m) bs).1.isSome = true := by
  intro l
  induction l with
  | nil => intro b m bs; rfl
  | cons hd tl ih =>
    intro b m bs
    simp only [hardLoop]
    split
    · exact ih _ _ _
    · exact ih _ _ _

theorem hardLoop_cons_some (gameOver : Bool) (aiColor : Color) (m : Move)
    (tl : List Move) (b : Board) :
    (hardLoop gameOver aiColor (m :: tl) b none (-INF)).1.isSome = true := by
  simp only [hardLoop]
  split
  · exact hardLoop_some gameOver aiColor tl _ _ _
  · next h =>
    exfalso
    have hlb := minimaxT_lb gameOver aiColor 3
      ((b.set m.toRow m.toCol (b m.fromRow m.fromCol)).set m.fromRow m.fromCol none)
      (-INF) INF false
    rw [INF] at h hlb
    omega

theorem scoreMovesT_length (aiColor : Color) :
    ∀ (l : List Move) (b : Board) (acc : List (Move × Int)),
      (scoreMovesT aiColor l b acc).1.length = acc.length + l.length := by
  intro l
  induction l with
  | nil => intro b acc; simp [scoreMovesT]
  | cons m tl ih =>
    intro b acc
    rw [scoreMovesT, ih]
    simp
    omega

/-- C7: at every difficulty tier, the move selector returns `none` exactly
when the side to move has no move that keeps its own king out of check
(checkmate or stalemate); with at least one legal move it always returns a
move. -/
theorem C7_getBestMove_none_iff (b : Board) (gameOver : Bool) (aiColor : Color)
    (difficulty : Difficulty) (pickBest : Bool) (pick : Nat) :
    getBestMove b gameOver aiColor difficulty pickBest pick = none
      ↔ getAllLegalMoves b aiColor = [] := by
  cases difficulty with
  | easy =>
    rw [getBestMove, getRandomMove]
    rcases hl : getAllLegalMoves b aiColor with _ | ⟨m, tl⟩
    · simp
    · have hidx : pick % (m :: tl).length < (m :: tl).length :=
        Nat.mod_lt _ (Nat.succ_pos _)
      rw [if_neg (by simp)]
      rw [List.getElem?_eq_getElem hidx]
      simp
  | medium =>
    rw [getBestMove, getMediumMove]
    rcases hl : getAllLegalMoves b aiColor with _ | ⟨m, tl⟩
    · simp
    · rw [if_neg (by simp)]
      cases pickBest with
      | false =>
        have hidx : pick % (m :: tl).length < (m :: tl).length :=
          Nat.mod_lt _ (Nat.succ_pos _)
        rw [if_neg (by simp)]
        rw [List.getElem?_eq_getElem hidx]
        simp
      | true =>
        rw [if_pos rfl]
        have hne : ((scoreMovesT aiColor (m :: tl) b []).1.mergeSort
            fun x y => decide (y.2 ≤ x.2)) ≠ [] := by
          intro heq
          have hlen := congrArg List.length heq
          rw [List.length_mergeSort, scoreMovesT_length] at hlen
          simp at hlen
        rcases hs : (scoreMovesT aiColor (m :: tl) b []).1.mergeSort
            fun x y => decide (y.2 ≤ x.2) with _ | ⟨s, st⟩
        · exact absurd hs hne
        · simp [hs]
  | hard =>
    rw [getBestMove, getHardMoveT]
    rw [show (getAllLegalMovesT b aiColor).1 = getAllLegalMoves b aiColor from rfl]
    rcases hl : getAllLegalMoves b aiColor with _ | ⟨m, tl⟩
    · simp
    · have h2 := hardLoop_cons_some gameOver aiColor m tl (getAllLegalMovesT b aiColor).2
      constructor
      · intro hc
        rw [hc] at h2
        exact absurd h2 (by simp)
      · intro hc
        exact absurd hc (by simp)

end Chess
